import Mathlib

/-!
Verification of the scoring engine of the fundamental-screener repository.

The development shallowly embeds the two source files the claims are about:

* `src/core/stock_scorer.py` — the `StockScorer` class: the two normalizers
  (`normalize_minmax`, `normalize_zscore`) and the weighted aggregator
  (`calculate_scores`).  Python floats are modelled as exact real numbers
  (`ℝ`); the float expression `variance ** 0.5` is modelled as `Real.sqrt`.
  A Python cell value is `None`, a float `nan` (the not-applicable sentinel)
  or an ordinary number; this three-way split is the inductive type `PyVal`.
  Python dicts are insertion-ordered, so they are modelled as association
  lists; `dict.get(k)` (default `None`) and `dict.get(k, 1.0)` become total
  lookups with the matching defaults.

* `src/data/score_weights.py` — `apply_subsector_weights`, a pure function
  on dicts of numbers.  It is embedded over `ℚ` and kept computable.  The
  source function has no `raise` statement and always returns a dict; the
  spec-mandated failing variant is embedded separately as `adjust_spec` for
  comparison.
-/

/-- A Python cell value as used by the scorer: `None` (missing), float
`nan` (the not-applicable sentinel) or a finite float, modelled as a real. -/
inductive PyVal where
  | none : PyVal
  | nan : PyVal
  | num : ℝ → PyVal

/-- Returns `true` exactly for numeric cells: the Python test
`v is not None and not (isinstance(v, float) and math.isnan(v))`. -/
def isValidVal : PyVal → Bool
  | .num _ => true
  | _ => false

namespace StockScorer

/-- Embeds `[v for v in values if v is not None and not isnan(v)]` — the numeric
cells of a column, in order. -/
def valid_values (values : List PyVal) : List ℝ :=
  values.filterMap (fun v => match v with | .num x => some x | _ => Option.none)

/-- Python `min` of a list of floats (the empty case never occurs in the
source; it is given the junk value 0). -/
noncomputable def listMin : List ℝ → ℝ
  | [] => 0
  | [x] => x
  | x :: y :: t => min x (listMin (y :: t))

/-- Python `max` of a list of floats (junk value 0 on the empty list). -/
noncomputable def listMax : List ℝ → ℝ
  | [] => 0
  | [x] => x
  | x :: y :: t => max x (listMax (y :: t))

/-- Insert into a sorted list, keeping it sorted (ascending). -/
noncomputable def insort (x : ℝ) : List ℝ → List ℝ
  | [] => [x]
  | y :: ys => if x ≤ y then x :: y :: ys else y :: insort x ys

/-- Python `sorted` on floats: the ascending reordering of the list.
(Insertion sort; on real numbers every correct sort produces the same
list, so this is extensionally Python's `sorted`.) -/
noncomputable def pysorted (l : List ℝ) : List ℝ := l.foldr insort []

/-- Embeds `StockScorer.normalize_minmax` from `src/core/stock_scorer.py`:
min-max normalization of one metric column to the 0–100 scale. -/
noncomputable def normalize_minmax (values : List PyVal) (higher_is_better : Bool) :
    List (Option ℝ) :=
  let vv := valid_values values
  if vv.length = 0 then
    values.map (fun _ => Option.none)
  else
    let min_val := listMin vv
    let max_val := listMax vv
    if max_val = min_val then
      values.map (fun v => match v with | .num _ => some 50 | _ => Option.none)
    else
      values.map (fun v =>
        match v with
        | .num x =>
          let score := ((x - min_val) / (max_val - min_val)) * 100
          some (if higher_is_better then score else 100 - score)
        | _ => Option.none)

/-- Embeds `mean = sum(valid_values) / len(valid_values)` in `normalize_zscore`. -/
noncomputable def zscore_mean (vv : List ℝ) : ℝ := vv.sum / (vv.length : ℝ)

/-- Embeds `variance = sum((v - mean) ** 2 for v in valid_values) / len(valid_values)`
— the population variance used by `normalize_zscore`. -/
noncomputable def zscore_variance (vv : List ℝ) : ℝ :=
  (vv.map (fun x => (x - zscore_mean vv) ^ 2)).sum / (vv.length : ℝ)

/-- Embeds `std_dev = variance ** 0.5` in `normalize_zscore`. -/
noncomputable def zscore_std (vv : List ℝ) : ℝ := Real.sqrt (zscore_variance vv)

/-- Embeds `StockScorer.normalize_zscore` from `src/core/stock_scorer.py`:
z-score normalization, scaled onto 0–100 with the literal factor `16.67`
(the source's approximation of 50/3) and clamped. -/
noncomputable def normalize_zscore (values : List PyVal) (higher_is_better : Bool) :
    List (Option ℝ) :=
  let vv := valid_values values
  if vv.length < 2 then
    values.map (fun v => match v with | .num _ => some 50 | _ => Option.none)
  else
    if zscore_std vv = 0 then
      values.map (fun v => match v with | .num _ => some 50 | _ => Option.none)
    else
      values.map (fun v =>
        match v with
        | .num x =>
          let z := (x - zscore_mean vv) / zscore_std vv
          let z1 := if higher_is_better then z else -z
          let score := 50 + z1 * 16.67
          some (max 0 (min 100 score))
        | _ => Option.none)

/-- The `self.higher_is_better` table built in `StockScorer.__init__`. -/
def higher_is_better : List (String × Bool) :=
  [("ev_to_fcf", false),
   ("revenue_cagr", true),
   ("operating_margin", true),
   ("fcf_margin", true),
   ("net_debt_to_ebitda", false),
   ("interest_coverage", true),
   ("capex_intensity", false),
   ("inventory_turnover", true),
   ("gross_margin", true),
   ("rnd_intensity", true),
   ("net_debt_to_fcf", false),
   ("revenue_per_employee", true),
   ("rule_of_40", true)]

/-- Embeds `self.higher_is_better.get(metric_key, True)`. -/
def higher_is_better_get (metric_key : String) : Bool :=
  match higher_is_better.find? (fun p => p.1 = metric_key) with
  | some p => p.2
  | Option.none => true

/-- Embeds `row.get(metric_key)` on one stock's metric dict: absent keys read as
`None`, exactly as in the source. -/
def lookupVal (row : List (String × PyVal)) (metric_key : String) : PyVal :=
  match row.find? (fun p => p.1 = metric_key) with
  | some p => p.2
  | Option.none => PyVal.none

/-- Embeds `values = [stocks_data[ticker].get(metric_key) for ticker in tickers]`. -/
def metric_values (stocks_data : List (String × List (String × PyVal)))
    (metric_key : String) : List PyVal :=
  stocks_data.map (fun row => lookupVal row.2 metric_key)

/-- The normalization algorithm selected for a run (`self.normalization`). -/
inductive Normalization where
  | minmax : Normalization
  | zscore : Normalization

/-- The median-imputation step of `calculate_scores`:
`median = sorted(valid_values)[len(valid_values) // 2]` and
`values = [v if valid(v) else (median if v is None else v) for v in values]`
— `None` cells become the median, `nan` and numeric cells are unchanged. -/
noncomputable def impute_median (values : List PyVal) : List PyVal :=
  let vv := valid_values values
  let median := (pysorted vv).getD (vv.length / 2) 0
  values.map (fun v =>
    match v with
    | .num x => .num x
    | .nan => .nan
    | .none => .num median)

/-- The body of the per-ticker loop of `calculate_scores`, acting on one
ticker's state `sw = (score, actual_weight)` given the (post-imputation)
cell `v` and the normalized cell `n`. -/
def apply_metric_weight (weight : ℝ) (sw : Option ℝ × ℝ) (v : PyVal) (n : Option ℝ) :
    Option ℝ × ℝ :=
  match sw.1 with
  | Option.none => sw
  | some s =>
    match v with
    | .nan => sw
    | _ =>
      match n with
      | some nv => (some (s + nv * weight), sw.2 + weight)
      | Option.none => (Option.none, sw.2)

/-- The metric column after the optional median imputation of
`calculate_scores` (`if fill_missing_with_median and valid_values: ...`). -/
noncomputable def step_values (stocks_data : List (String × List (String × PyVal)))
    (fill_missing_with_median : Bool) (metric_key : String) : List PyVal :=
  let values := metric_values stocks_data metric_key
  if fill_missing_with_median && !(valid_values values).isEmpty then
    impute_median values
  else values

/-- The normalized column of one metric inside `calculate_scores`: the
selected normalizer applied to the (possibly imputed) column with the
metric's direction. -/
noncomputable def step_normalized (stocks_data : List (String × List (String × PyVal)))
    (normalization : Normalization) (fill_missing_with_median : Bool)
    (metric_key : String) : List (Option ℝ) :=
  match normalization with
  | .zscore => normalize_zscore (step_values stocks_data fill_missing_with_median metric_key)
      (higher_is_better_get metric_key)
  | .minmax => normalize_minmax (step_values stocks_data fill_missing_with_median metric_key)
      (higher_is_better_get metric_key)

/-- One iteration of the `for metric_key, weight in self.weights.items()`
loop of `calculate_scores`, transforming the per-ticker state list. -/
noncomputable def stepMetric (stocks_data : List (String × List (String × PyVal)))
    (normalization : Normalization) (fill_missing_with_median : Bool)
    (state : List (Option ℝ × ℝ)) (mw : String × ℝ) : List (Option ℝ × ℝ) :=
  if mw.2 = 0 then state
  else
    if (valid_values (metric_values stocks_data mw.1)).length = 0 then state
    else
      (state.zip ((step_values stocks_data fill_missing_with_median mw.1).zip
          (step_normalized stocks_data normalization fill_missing_with_median mw.1))).map
        (fun p => apply_metric_weight mw.2 p.1 p.2.1 p.2.2)

/-- Embeds `StockScorer.calculate_scores` from `src/core/stock_scorer.py`:
weighted composite scores for all stocks.  The result is the ordered dict
{ticker → score or `None`}. -/
noncomputable def calculate_scores (stocks_data : List (String × List (String × PyVal)))
    (weights : List (String × ℝ)) (normalization : Normalization)
    (fill_missing_with_median : Bool) : List (String × Option ℝ) :=
  match stocks_data with
  | [] => []
  | _ :: _ =>
    let tickers := stocks_data.map Prod.fst
    let init : List (Option ℝ × ℝ) := tickers.map (fun _ => (some 0, 0))
    let final := weights.foldl
      (stepMetric stocks_data normalization fill_missing_with_median) init
    (tickers.zip final).map (fun p =>
      (p.1, match p.2.1 with
            | some s => some (if 0 < p.2.2 then s / p.2.2 else s)
            | Option.none => Option.none))

end StockScorer

/-- Embeds `modifier.get(k, 1.0)` from `src/data/score_weights.py`. -/
def modifierGet (modifier : List (String × ℚ)) (k : String) : ℚ :=
  match modifier.find? (fun p => p.1 = k) with
  | some p => p.2
  | Option.none => 1

/-- Embeds `apply_subsector_weights` from `src/data/score_weights.py`: scale each
base weight by its modifier (default 1.0) and, when the scaled total is
positive, divide by the total; otherwise the scaled weights are returned
unchanged (the source has no failure path). -/
def apply_subsector_weights (base : List (String × ℚ)) (modifier : List (String × ℚ)) :
    List (String × ℚ) :=
  let new_weights := base.map (fun kv => (kv.1, kv.2 * modifierGet modifier kv.1))
  let total := (new_weights.map Prod.snd).sum
  if 0 < total then new_weights.map (fun kv => (kv.1, kv.2 / total))
  else new_weights

/-- The error vocabulary of the specification's weight adjuster. -/
inductive AdjustError where
  | invalidWeights : AdjustError
deriving DecidableEq

/-- Modelled from the spec (§4.4 Weight Adjuster), for comparison with the
source's `apply_subsector_weights`: scale each base weight by its modifier
(default 1.0); fail with `InvalidWeights` if the scaled total is ≤ 0,
otherwise return the scaled weights divided by the total. -/
def adjust_spec (base : List (String × ℚ)) (modifier : List (String × ℚ)) :
    Except AdjustError (List (String × ℚ)) :=
  let scaled := base.map (fun kv => (kv.1, kv.2 * modifierGet modifier kv.1))
  let total := (scaled.map Prod.snd).sum
  if total ≤ 0 then Except.error AdjustError.invalidWeights
  else Except.ok (scaled.map (fun kv => (kv.1, kv.2 / total)))


/-! ## The weight adjuster (`src/data/score_weights.py`): claims C2 and C8 -/

/-- When the scaled total is positive, `apply_subsector_weights` divides
every scaled weight by the total. -/
theorem apply_subsector_weights_pos (base modifier : List (String × ℚ))
    (h : 0 < ((base.map (fun kv => (kv.1, kv.2 * modifierGet modifier kv.1))).map
      Prod.snd).sum) :
    apply_subsector_weights base modifier =
      (base.map (fun kv => (kv.1, kv.2 * modifierGet modifier kv.1))).map
        (fun kv => (kv.1, kv.2 /
          ((base.map (fun kv => (kv.1, kv.2 * modifierGet modifier kv.1))).map
            Prod.snd).sum)) := by
  simp only [apply_subsector_weights]
  rw [if_pos h]

/-- When the scaled total is not positive, `apply_subsector_weights`
returns the scaled weights unnormalized. -/
theorem apply_subsector_weights_nonpos (base modifier : List (String × ℚ))
    (h : ((base.map (fun kv => (kv.1, kv.2 * modifierGet modifier kv.1))).map
      Prod.snd).sum ≤ 0) :
    apply_subsector_weights base modifier =
      base.map (fun kv => (kv.1, kv.2 * modifierGet modifier kv.1)) := by
  simp only [apply_subsector_weights]
  rw [if_neg (not_lt.mpr h)]

/-- Sum of the weights of an association list after dividing every weight
by a constant. -/
theorem snd_sum_map_div (l : List (String × ℚ)) (t : ℚ) :
    ((l.map (fun kv => (kv.1, kv.2 / t))).map Prod.snd).sum
      = (l.map Prod.snd).sum / t := by
  induction l with
  | nil => simp
  | cons a l ih => simp only [List.map_cons, List.sum_cons, ih, add_div]

/-- Claim C2, counterexample: on base `{"a": 1}` and modifier `{"a": 0}`
the scaled total is 0 ≤ 0, yet `apply_subsector_weights` does not fail —
it returns the unnormalized scaled dict `{"a": 0}` — whereas the
spec-described adjuster fails with `InvalidWeights` there. -/
theorem claim2_no_failure_counterexample :
    apply_subsector_weights [("a", (1 : ℚ))] [("a", 0)] = [("a", 0)]
    ∧ adjust_spec [("a", (1 : ℚ))] [("a", 0)]
        = Except.error AdjustError.invalidWeights := by
  constructor
  · simp [apply_subsector_weights, modifierGet, List.find?]
  · simp [adjust_spec, modifierGet, List.find?]

/-- Claim C2, amended: for every base weight vector and modifier vector the
weight adjuster computes `scaled[k] = base[k] * modifier.get(k, 1.0)` for
each key of base; when the scaled total is ≤ 0 it does not fail but returns
the scaled weights unnormalized, and only when the total is > 0 does it
return `{key: scaled[key] / total}`. -/
theorem claim2_adjuster_total_guard (base modifier : List (String × ℚ)) :
    (((base.map (fun kv => (kv.1, kv.2 * modifierGet modifier kv.1))).map
        Prod.snd).sum ≤ 0 →
      apply_subsector_weights base modifier =
        base.map (fun kv => (kv.1, kv.2 * modifierGet modifier kv.1)))
    ∧ (0 < ((base.map (fun kv => (kv.1, kv.2 * modifierGet modifier kv.1))).map
        Prod.snd).sum →
      apply_subsector_weights base modifier =
        (base.map (fun kv => (kv.1, kv.2 * modifierGet modifier kv.1))).map
          (fun kv => (kv.1, kv.2 /
            ((base.map (fun kv => (kv.1, kv.2 * modifierGet modifier kv.1))).map
              Prod.snd).sum))) :=
  ⟨apply_subsector_weights_nonpos base modifier,
   apply_subsector_weights_pos base modifier⟩

/-- Witness for C2's amended theorem, at base `{"a": 1}`, modifier
`{"a": 0}`: the ≤ 0 branch returns the scaled weights unnormalized. -/
theorem claim2_adjuster_total_guard_witness :
    apply_subsector_weights [("a", (1 : ℚ))] [("a", 0)]
      = [("a", (1 : ℚ))].map (fun kv =>
          (kv.1, kv.2 * modifierGet [("a", (0 : ℚ))] kv.1)) :=
  (claim2_adjuster_total_guard [("a", (1 : ℚ))] [("a", 0)]).1
    (by simp [modifierGet, List.find?])

/-- Claim C8: with a positive scaled total, the adjusted weight vector
returned by the weight adjuster sums to 1.0; a key of base none of whose
occurrences appear in the modifier is scaled by the identity multiplier
1.0 (its adjusted entry is `base[k] / total`); and
`adjust({"a": 0.5, "b": 0.5}, {"a": 2.0}) = {"a": 2/3, "b": 1/3}`. -/
theorem claim8_adjuster_normalizes (base modifier : List (String × ℚ))
    (h : 0 < ((base.map (fun kv => (kv.1, kv.2 * modifierGet modifier kv.1))).map
        Prod.snd).sum) :
    ((apply_subsector_weights base modifier).map Prod.snd).sum = 1
    ∧ (∀ p ∈ base, (∀ q ∈ modifier, q.1 ≠ p.1) →
        (p.1, p.2 /
          ((base.map (fun kv => (kv.1, kv.2 * modifierGet modifier kv.1))).map
            Prod.snd).sum) ∈ apply_subsector_weights base modifier)
    ∧ apply_subsector_weights [("a", (1 : ℚ)/2), ("b", 1/2)] [("a", 2)]
        = [("a", 2/3), ("b", 1/3)] := by
  refine ⟨?_, ?_, ?_⟩
  · rw [apply_subsector_weights_pos base modifier h, snd_sum_map_div,
      div_self (ne_of_gt h)]
  · intro p hp hq
    rw [apply_subsector_weights_pos base modifier h]
    have hmg : modifierGet modifier p.1 = 1 := by
      unfold modifierGet
      rw [List.find?_eq_none.mpr]
      intro q hqm
      simpa using hq q hqm
    refine List.mem_map.mpr
      ⟨(p.1, p.2 * modifierGet modifier p.1), ?_, by rw [hmg, mul_one]⟩
    exact List.mem_map.mpr ⟨p, hp, rfl⟩
  · simp [apply_subsector_weights, modifierGet, List.find?]
    norm_num

/-- Witness for C8 at base `{"a": 0.5, "b": 0.5}`, modifier `{"a": 2.0}`:
the adjusted weights sum to 1. -/
theorem claim8_adjuster_normalizes_witness :
    ((apply_subsector_weights [("a", (1 : ℚ)/2), ("b", 1/2)] [("a", 2)]).map
      Prod.snd).sum = 1 :=
  (claim8_adjuster_normalizes [("a", (1 : ℚ)/2), ("b", 1/2)] [("a", 2)]
    (by
      have h1 : modifierGet [("a", (2 : ℚ))] "a" = 2 := rfl
      have h2 : modifierGet [("a", (2 : ℚ))] "b" = 1 := rfl
      simp only [List.map_cons, List.map_nil, List.sum_cons, List.sum_nil, h1, h2]
      norm_num)).1

/-! ## The normalizers (`src/core/stock_scorer.py`): claims C4, C5, C6, C7 -/

open StockScorer

/-- A column with no numeric cell has an empty valid-value list. -/
theorem valid_values_nil_of_all_invalid (values : List PyVal)
    (h : ∀ v ∈ values, isValidVal v = false) : valid_values values = [] := by
  induction values with
  | nil => rfl
  | cons a l ih =>
    have ha := h a (List.mem_cons_self a l)
    cases a with
    | num x => simp [isValidVal] at ha
    | none => simpa [valid_values] using ih (fun v hv => h v (List.mem_cons_of_mem _ hv))
    | nan => simpa [valid_values] using ih (fun v hv => h v (List.mem_cons_of_mem _ hv))

/-- Every numeric cell of a column occurs among its valid values. -/
theorem mem_valid_values (values : List PyVal) (x : ℝ) (h : PyVal.num x ∈ values) :
    x ∈ valid_values values := by
  unfold valid_values
  exact List.mem_filterMap.mpr ⟨PyVal.num x, h, rfl⟩

/-- Python `min` is a lower bound of the list. -/
theorem listMin_le (l : List ℝ) (x : ℝ) (h : x ∈ l) : listMin l ≤ x := by
  induction l with
  | nil => exact absurd h (List.not_mem_nil x)
  | cons a t ih =>
    cases t with
    | nil =>
      rcases List.mem_singleton.mp h with rfl
      exact le_refl _
    | cons b u =>
      rcases List.mem_cons.mp h with rfl | hm
      · exact min_le_left _ _
      · exact le_trans (min_le_right _ _) (ih hm)

/-- Python `max` is an upper bound of the list. -/
theorem le_listMax (l : List ℝ) (x : ℝ) (h : x ∈ l) : x ≤ listMax l := by
  induction l with
  | nil => exact absurd h (List.not_mem_nil x)
  | cons a t ih =>
    cases t with
    | nil =>
      rcases List.mem_singleton.mp h with rfl
      exact le_refl _
    | cons b u =>
      rcases List.mem_cons.mp h with rfl | hm
      · exact le_max_left _ _
      · exact le_trans (ih hm) (le_max_right _ _)

/-- Min-max normalization preserves the length of the column. -/
theorem normalize_minmax_length (values : List PyVal) (hib : Bool) :
    (normalize_minmax values hib).length = values.length := by
  simp only [normalize_minmax]
  by_cases h1 : (valid_values values).length = 0
  · rw [if_pos h1, List.length_map]
  · rw [if_neg h1]
    by_cases h2 : listMax (valid_values values) = listMin (valid_values values)
    · rw [if_pos h2, List.length_map]
    · rw [if_neg h2, List.length_map]

/-- Z-score normalization preserves the length of the column. -/
theorem normalize_zscore_length (values : List PyVal) (hib : Bool) :
    (normalize_zscore values hib).length = values.length := by
  simp only [normalize_zscore]
  by_cases h1 : (valid_values values).length < 2
  · rw [if_pos h1, List.length_map]
  · rw [if_neg h1]
    by_cases h2 : zscore_std (valid_values values) = 0
    · rw [if_pos h2, List.length_map]
    · rw [if_neg h2, List.length_map]

/-- Claim C6: min-max normalization returns all-missing when there are no
valid values; maps every numeric cell to 50.0 when max = min; otherwise
maps each numeric cell `x` to `((x - min)/(max - min)) * 100`, replaced by
`100 -` that value when `higher_is_better` is false, and every non-numeric
cell to missing; on the column `[10, 20]` it yields `[0, 100]` when higher
is better and `[100, 0]` when lower is better. -/
theorem claim6_minmax_spec (values : List PyVal) (hib : Bool) :
    (valid_values values = [] →
      normalize_minmax values hib = values.map (fun _ => Option.none))
    ∧ (valid_values values ≠ [] →
        listMax (valid_values values) = listMin (valid_values values) →
        ∀ (i : ℕ) (v : PyVal), values[i]? = some v →
          (normalize_minmax values hib)[i]? = some (match v with
            | PyVal.num _ => some 50
            | _ => Option.none))
    ∧ (valid_values values ≠ [] →
        listMax (valid_values values) ≠ listMin (valid_values values) →
        ∀ (i : ℕ) (v : PyVal), values[i]? = some v →
          (normalize_minmax values hib)[i]? = some (match v with
            | PyVal.num x =>
                some (if hib then
                    ((x - listMin (valid_values values)) /
                      (listMax (valid_values values) - listMin (valid_values values))) * 100
                  else 100 - ((x - listMin (valid_values values)) /
                      (listMax (valid_values values) - listMin (valid_values values))) * 100)
            | _ => Option.none))
    ∧ normalize_minmax [PyVal.num 10, PyVal.num 20] true = [some 0, some 100]
    ∧ normalize_minmax [PyVal.num 10, PyVal.num 20] false = [some 100, some 0] := by
  refine ⟨?_, ?_, ?_, ?_, ?_⟩
  · intro h
    simp only [normalize_minmax]
    rw [if_pos (by rw [h]; rfl)]
  · intro h1 h2 i v hv
    simp only [normalize_minmax]
    rw [if_neg (fun hc => h1 (List.length_eq_zero.mp hc)), if_pos h2,
      List.getElem?_map, hv]
    rfl
  · intro h1 h2 i v hv
    simp only [normalize_minmax]
    rw [if_neg (fun hc => h1 (List.length_eq_zero.mp hc)), if_neg h2,
      List.getElem?_map, hv]
    cases v <;> rfl
  · norm_num [normalize_minmax, valid_values, List.filterMap, listMin, listMax,
      max_def, min_def]
  · norm_num [normalize_minmax, valid_values, List.filterMap, listMin, listMax,
      max_def, min_def]

/-- Claim C7: on every non-empty column, both normalizers return a list of
the same length as the input, aligned per instrument: position `i` of the
output is the missing marker exactly when cell `i` is not numeric, and
every numeric cell normalizes to a value in [0, 100]. -/
theorem claim7_bounds_and_alignment (values : List PyVal) (hib : Bool)
    (hne : values ≠ []) :
    ((normalize_minmax values hib).length = values.length
      ∧ ∀ (i : ℕ) (v : PyVal), values[i]? = some v →
          ((isValidVal v = false →
              (normalize_minmax values hib)[i]? = some Option.none)
           ∧ (isValidVal v = true → ∃ x,
              (normalize_minmax values hib)[i]? = some (some x) ∧ 0 ≤ x ∧ x ≤ 100)))
    ∧ ((normalize_zscore values hib).length = values.length
      ∧ ∀ (i : ℕ) (v : PyVal), values[i]? = some v →
          ((isValidVal v = false →
              (normalize_zscore values hib)[i]? = some Option.none)
           ∧ (isValidVal v = true → ∃ x,
              (normalize_zscore values hib)[i]? = some (some x) ∧ 0 ≤ x ∧ x ≤ 100))) := by
  constructor
  · refine ⟨normalize_minmax_length values hib, ?_⟩
    intro i v hv
    simp only [normalize_minmax]
    by_cases h1 : (valid_values values).length = 0
    · rw [if_pos h1]
      constructor
      · intro _
        rw [List.getElem?_map, hv]
        rfl
      · intro hval
        cases v with
        | num x =>
          exfalso
          have hx : x ∈ valid_values values :=
            mem_valid_values values x (List.getElem?_mem hv)
          rw [List.length_eq_zero.mp h1] at hx
          exact List.not_mem_nil x hx
        | none => simp [isValidVal] at hval
        | nan => simp [isValidVal] at hval
    · rw [if_neg h1]
      by_cases h2 : listMax (valid_values values) = listMin (valid_values values)
      · rw [if_pos h2]
        constructor
        · intro hval
          rw [List.getElem?_map, hv]
          cases v with
          | num x => simp [isValidVal] at hval
          | none => rfl
          | nan => rfl
        · intro hval
          cases v with
          | num x =>
            refine ⟨50, ?_, by norm_num, by norm_num⟩
            rw [List.getElem?_map, hv]
            rfl
          | none => simp [isValidVal] at hval
          | nan => simp [isValidVal] at hval
      · rw [if_neg h2]
        constructor
        · intro hval
          rw [List.getElem?_map, hv]
          cases v with
          | num x => simp [isValidVal] at hval
          | none => rfl
          | nan => rfl
        · intro hval
          cases v with
          | num x =>
            have hx : x ∈ valid_values values :=
              mem_valid_values values x (List.getElem?_mem hv)
            have hmn : listMin (valid_values values) ≤ x :=
              listMin_le (valid_values values) x hx
            have hmx : x ≤ listMax (valid_values values) :=
              le_listMax (valid_values values) x hx
            have hlt : listMin (valid_values values) < listMax (valid_values values) :=
              lt_of_le_of_ne (le_trans hmn hmx) (fun hc => h2 hc.symm)
            have hq0 : 0 ≤ (x - listMin (valid_values values)) /
                (listMax (valid_values values) - listMin (valid_values values)) :=
              div_nonneg (sub_nonneg.mpr hmn) (le_of_lt (sub_pos.mpr hlt))
            have hq1 : (x - listMin (valid_values values)) /
                (listMax (valid_values values) - listMin (valid_values values)) ≤ 1 :=
              (div_le_one (sub_pos.mpr hlt)).mpr (sub_le_sub_right hmx _)
            have hs0 : 0 ≤ (x - listMin (valid_values values)) /
                (listMax (valid_values values) - listMin (valid_values values)) * 100 :=
              mul_nonneg hq0 (by norm_num)
            have hs1 : (x - listMin (valid_values values)) /
                (listMax (valid_values values) - listMin (valid_values values)) * 100
                  ≤ 100 := by
              calc (x - listMin (valid_values values)) /
                  (listMax (valid_values values) - listMin (valid_values values)) * 100
                  ≤ 1 * 100 := mul_le_mul_of_nonneg_right hq1 (by norm_num)
                _ = 100 := one_mul 100
            refine ⟨if hib then (x - listMin (valid_values values)) /
                (listMax (valid_values values) - listMin (valid_values values)) * 100
              else 100 - (x - listMin (valid_values values)) /
                (listMax (valid_values values) - listMin (valid_values values)) * 100,
              ?_, ?_, ?_⟩
            · rw [List.getElem?_map, hv]
              rfl
            · cases hib with
              | true => simpa using hs0
              | false => simpa using hs1
            · cases hib with
              | true => simpa using hs1
              | false => simpa using hs0
          | none => simp [isValidVal] at hval
          | nan => simp [isValidVal] at hval
  · refine ⟨normalize_zscore_length values hib, ?_⟩
    intro i v hv
    simp only [normalize_zscore]
    by_cases h1 : (valid_values values).length < 2
    · rw [if_pos h1]
      constructor
      · intro hval
        rw [List.getElem?_map, hv]
        cases v with
        | num x => simp [isValidVal] at hval
        | none => rfl
        | nan => rfl
      · intro hval
        cases v with
        | num x =>
          refine ⟨50, ?_, by norm_num, by norm_num⟩
          rw [List.getElem?_map, hv]
          rfl
        | none => simp [isValidVal] at hval
        | nan => simp [isValidVal] at hval
    · rw [if_neg h1]
      by_cases h2 : zscore_std (valid_values values) = 0
      · rw [if_pos h2]
        constructor
        · intro hval
          rw [List.getElem?_map, hv]
          cases v with
          | num x => simp [isValidVal] at hval
          | none => rfl
          | nan => rfl
        · intro hval
          cases v with
          | num x =>
            refine ⟨50, ?_, by norm_num, by norm_num⟩
            rw [List.getElem?_map, hv]
            rfl
          | none => simp [isValidVal] at hval
          | nan => simp [isValidVal] at hval
      · rw [if_neg h2]
        constructor
        · intro hval
          rw [List.getElem?_map, hv]
          cases v with
          | num x => simp [isValidVal] at hval
          | none => rfl
          | nan => rfl
        · intro hval
          cases v with
          | num x =>
            refine ⟨_, by rw [List.getElem?_map, hv]; rfl, le_max_left _ _,
              max_le (by norm_num) (min_le_left _ _)⟩
          | none => simp [isValidVal] at hval
          | nan => simp [isValidVal] at hval

/-- Witness for C7 on the column `[10, missing]`. -/
theorem claim7_bounds_and_alignment_witness :
    (normalize_minmax [PyVal.num 10, PyVal.none] true).length = 2
    ∧ (∃ x, (normalize_minmax [PyVal.num 10, PyVal.none] true)[0]? = some (some x)
        ∧ 0 ≤ x ∧ x ≤ 100)
    ∧ (normalize_zscore [PyVal.num 10, PyVal.none] true)[1]? = some Option.none := by
  have h := claim7_bounds_and_alignment [PyVal.num 10, PyVal.none] true (by simp)
  exact ⟨h.1.1, (h.1.2 0 (PyVal.num 10) rfl).2 rfl,
    (h.2.2 1 PyVal.none rfl).1 rfl⟩

/-- Claim C5, counterexample: on the column `[0, 2]` (mean 1, population
standard deviation 1) the code returns 33.33 and 66.67 — the literal scale
factor 16.67 — not the claimed `50 + z * (50/3)` values 100/3 and 200/3. -/
theorem claim5_zscore_factor_counterexample :
    normalize_zscore [PyVal.num 0, PyVal.num 2] true = [some 33.33, some 66.67]
    ∧ ((33.33 : ℝ) ≠ 50 + (((0 : ℝ) - 1) / 1) * (50 / 3)
        ∧ (66.67 : ℝ) ≠ 50 + (((2 : ℝ) - 1) / 1) * (50 / 3)) := by
  refine ⟨?_, by norm_num, by norm_num⟩
  have hvv : valid_values [PyVal.num 0, PyVal.num 2] = [0, 2] := rfl
  have hstd : zscore_std [(0 : ℝ), 2] = 1 := by
    norm_num [zscore_std, zscore_variance, zscore_mean]
  simp only [normalize_zscore, hvv, hstd]
  norm_num [zscore_mean]

/-- Claim C5, amended: z-score normalization maps every numeric cell to
50.0 when fewer than 2 valid values exist or the population standard
deviation is 0; otherwise each numeric cell `x` maps to
`max 0 (min 100 (50 + z * 16.67))` — the code's literal 16.67, not 50/3 —
where `z = (x - mean)/std`, negated when `higher_is_better` is false;
non-numeric cells map to missing. -/
theorem claim5_zscore_code_formula (values : List PyVal) (hib : Bool) :
    (((valid_values values).length < 2 ∨ zscore_std (valid_values values) = 0) →
      ∀ (i : ℕ) (v : PyVal), values[i]? = some v →
        (normalize_zscore values hib)[i]? = some (match v with
          | PyVal.num _ => some 50
          | _ => Option.none))
    ∧ (2 ≤ (valid_values values).length → zscore_std (valid_values values) ≠ 0 →
      ∀ (i : ℕ) (v : PyVal), values[i]? = some v →
        (normalize_zscore values hib)[i]? = some (match v with
          | PyVal.num x => some (max 0 (min 100 (50 +
              (if hib then
                (x - zscore_mean (valid_values values)) / zscore_std (valid_values values)
               else
                -((x - zscore_mean (valid_values values)) /
                  zscore_std (valid_values values))) * 16.67)))
          | _ => Option.none)) := by
  constructor
  · intro h i v hv
    simp only [normalize_zscore]
    rcases Nat.lt_or_ge (valid_values values).length 2 with h1 | h1
    · rw [if_pos h1, List.getElem?_map, hv]
      rfl
    · have h1x : ¬ (valid_values values).length < 2 := not_lt.mpr h1
      rcases h with hlen | hstd
      · exact absurd hlen h1x
      · rw [if_neg h1x, if_pos hstd, List.getElem?_map, hv]
        rfl
  · intro hlen hstd i v hv
    simp only [normalize_zscore]
    rw [if_neg (not_lt.mpr hlen), if_neg hstd, List.getElem?_map, hv]
    cases v <;> rfl

/-- Witness for C5's amended theorem on the column `[0, 2]` at index 1. -/
theorem claim5_zscore_code_formula_witness :
    (normalize_zscore [PyVal.num 0, PyVal.num 2] true)[1]? =
      some (some (max 0 (min 100 (50 +
        (((2 : ℝ) - zscore_mean (valid_values [PyVal.num 0, PyVal.num 2])) /
          zscore_std (valid_values [PyVal.num 0, PyVal.num 2])) * 16.67)))) := by
  have h := (claim5_zscore_code_formula [PyVal.num 0, PyVal.num 2] true).2
    (le_refl 2)
    (by norm_num [zscore_std, zscore_variance, zscore_mean, valid_values, List.filterMap])
    1 (PyVal.num 2) rfl
  simpa using h

/-- Claim C4: the imputation step replaces each missing cell by the element
at index `len // 2` of the sorted valid values (the lower-middle element
for an even count), leaves not-applicable and numeric cells untouched; for
peer values `[10, 20, 30]` a missing cell becomes 20, and for the even
count `[10, 40, 20, 30]` it becomes 30 (lower middle), not 25. -/
theorem claim4_median_imputation (values : List PyVal) :
    (∀ (i : ℕ) (v : PyVal), values[i]? = some v →
      (impute_median values)[i]? = some (match v with
        | PyVal.none => PyVal.num ((pysorted (valid_values values)).getD
            ((valid_values values).length / 2) 0)
        | PyVal.nan => PyVal.nan
        | PyVal.num x => PyVal.num x))
    ∧ impute_median [PyVal.num 10, PyVal.num 20, PyVal.num 30, PyVal.none]
        = [PyVal.num 10, PyVal.num 20, PyVal.num 30, PyVal.num 20]
    ∧ impute_median [PyVal.num 10, PyVal.num 40, PyVal.num 20, PyVal.num 30, PyVal.none]
        = [PyVal.num 10, PyVal.num 40, PyVal.num 20, PyVal.num 30, PyVal.num 30] := by
  refine ⟨?_, ?_, ?_⟩
  · intro i v hv
    simp only [impute_median]
    rw [List.getElem?_map, hv]
    cases v <;> rfl
  · norm_num [impute_median, valid_values, List.filterMap, pysorted, insort, List.foldr]
  · norm_num [impute_median, valid_values, List.filterMap, pysorted, insort, List.foldr]

/-- Witness for C4 at the column `[10, 20, 30, missing]`, index 3. -/
theorem claim4_median_imputation_witness :
    (impute_median [PyVal.num 10, PyVal.num 20, PyVal.num 30, PyVal.none])[3]? =
      some (PyVal.num ((pysorted (valid_values
          [PyVal.num 10, PyVal.num 20, PyVal.num 30, PyVal.none])).getD
        ((valid_values [PyVal.num 10, PyVal.num 20, PyVal.num 30,
          PyVal.none]).length / 2) 0)) :=
  (claim4_median_imputation [PyVal.num 10, PyVal.num 20, PyVal.num 30, PyVal.none]).1
    3 PyVal.none rfl

/-- Witness for C6 on the degenerate column `[5, 5]` (max = min), index 0. -/
theorem claim6_minmax_spec_witness :
    (normalize_minmax [PyVal.num 5, PyVal.num 5] true)[0]? = some (some 50) := by
  have h := (claim6_minmax_spec [PyVal.num 5, PyVal.num 5] true).2.1
    (by simp [valid_values, List.filterMap])
    (by norm_num [listMin, listMax, valid_values, List.filterMap])
    0 (PyVal.num 5) rfl
  simpa using h

/-! ## Aggregator infrastructure -/

theorem lt_length_of_getElem?_some (l : List α) (i : ℕ) (a : α) (h : l[i]? = some a) :
    i < l.length := by
  by_contra hc
  rw [List.getElem?_eq_none (le_of_not_lt hc)] at h
  exact Option.noConfusion h

theorem getElem?_zip_of_some (l1 : List α) (l2 : List β) (i : ℕ) (a : α) (b : β)
    (h1 : l1[i]? = some a) (h2 : l2[i]? = some b) : (l1.zip l2)[i]? = some (a, b) := by
  induction l1 generalizing l2 i with
  | nil => simp at h1
  | cons x t ih =>
    cases l2 with
    | nil => simp at h2
    | cons y u =>
      cases i with
      | zero =>
        simp only [List.getElem?_cons_zero, Option.some_inj] at h1 h2
        simp [List.zip_cons_cons, h1, h2]
      | succ j =>
        simp only [List.getElem?_cons_succ] at h1 h2
        simpa [List.zip_cons_cons] using ih u j h1 h2

theorem impute_median_length (values : List PyVal) :
    (impute_median values).length = values.length := by
  simp [impute_median]

theorem metric_values_length (stocks_data : List (String × List (String × PyVal)))
    (m : String) : (metric_values stocks_data m).length = stocks_data.length := by
  simp [metric_values]

theorem step_values_length (stocks_data : List (String × List (String × PyVal)))
    (fill : Bool) (m : String) :
    (step_values stocks_data fill m).length = stocks_data.length := by
  simp only [step_values]
  split
  · rw [impute_median_length, metric_values_length]
  · rw [metric_values_length]

theorem step_normalized_length (stocks_data : List (String × List (String × PyVal)))
    (norm : Normalization) (fill : Bool) (m : String) :
    (step_normalized stocks_data norm fill m).length = stocks_data.length := by
  cases norm with
  | zscore =>
    rw [step_normalized, normalize_zscore_length, step_values_length]
  | minmax =>
    rw [step_normalized, normalize_minmax_length, step_values_length]

theorem stepMetric_length (stocks_data : List (String × List (String × PyVal)))
    (norm : Normalization) (fill : Bool) (state : List (Option ℝ × ℝ)) (mw : String × ℝ)
    (h : state.length = stocks_data.length) :
    (stepMetric stocks_data norm fill state mw).length = state.length := by
  simp only [stepMetric]
  by_cases h0 : mw.2 = 0
  · rw [if_pos h0]
  · rw [if_neg h0]
    by_cases h1 : (valid_values (metric_values stocks_data mw.1)).length = 0
    · rw [if_pos h1]
    · rw [if_neg h1, List.length_map, List.length_zip, List.length_zip,
        step_values_length, step_normalized_length, h]
      omega

theorem foldl_stepMetric_length (stocks_data : List (String × List (String × PyVal)))
    (norm : Normalization) (fill : Bool) (ws : List (String × ℝ))
    (state : List (Option ℝ × ℝ)) (h : state.length = stocks_data.length) :
    (ws.foldl (stepMetric stocks_data norm fill) state).length = stocks_data.length := by
  induction ws generalizing state with
  | nil => simpa using h
  | cons w t ih =>
    rw [List.foldl_cons]
    exact ih _ (by rw [stepMetric_length _ _ _ _ _ h, h])

/-- Claim C10: `calculate_scores` returns a dict whose key list is exactly
the ticker list of `stocks_data`, in the same order (so no instrument is
added or dropped, and each value is a score or the undefined marker by
construction); the empty `stocks_data` yields the empty dict. -/
theorem claim10_result_keys (stocks_data : List (String × List (String × PyVal)))
    (weights : List (String × ℝ)) (norm : Normalization) (fill : Bool) :
    (calculate_scores stocks_data weights norm fill).map Prod.fst
        = stocks_data.map Prod.fst
    ∧ calculate_scores [] weights norm fill = [] := by
  constructor
  · cases stocks_data with
    | nil => rfl
    | cons a rest =>
      simp only [calculate_scores]
      rw [List.map_map]
      refine Eq.trans (List.map_congr_left fun p _ => (rfl :
        (Prod.fst ∘ fun p : String × (Option ℝ × ℝ) =>
          (p.1, match p.2.1 with
                | some s => some (if 0 < p.2.2 then s / p.2.2 else s)
                | Option.none => (Option.none : Option ℝ))) p = p.1)) ?_
      refine Eq.trans ?_ (List.map_fst_zip (List.map Prod.fst (a :: rest))
        (List.foldl (stepMetric (a :: rest) norm fill)
          (List.map (fun x => ((some 0 : Option ℝ), (0 : ℝ)))
            (List.map Prod.fst (a :: rest))) weights) ?_)
      · rfl
      · rw [foldl_stepMetric_length _ _ _ _ _ (by rw [List.length_map, List.length_map])]
        rw [List.length_map]
  · rfl

/-- A metric whose column has no valid value is a no-op for the per-metric
step of the aggregator. -/
theorem stepMetric_of_no_valid (stocks_data : List (String × List (String × PyVal)))
    (norm : Normalization) (fill : Bool) (state : List (Option ℝ × ℝ))
    (m : String) (w : ℝ)
    (h : valid_values (metric_values stocks_data m) = []) :
    stepMetric stocks_data norm fill state (m, w) = state := by
  simp only [stepMetric]
  by_cases h0 : w = 0
  · rw [if_pos h0]
  · rw [if_neg h0, if_pos (by rw [h]; rfl)]

/-- Claim C9: a metric in the weight vector whose column has zero valid
numeric values across the peer group is skipped entirely: its per-metric
step leaves every instrument's (score, accumulated-weight) state
unchanged, and deleting it from the weight vector does not change
`calculate_scores` at all (hence it cannot by itself make any composite
score undefined). -/
theorem claim9_no_signal_metric_skipped
    (stocks_data : List (String × List (String × PyVal))) (norm : Normalization)
    (fill : Bool) (w1 w2 : List (String × ℝ)) (m : String) (w : ℝ)
    (h : ∀ row ∈ stocks_data, isValidVal (lookupVal row.2 m) = false) :
    (∀ state, stepMetric stocks_data norm fill state (m, w) = state)
    ∧ calculate_scores stocks_data (w1 ++ (m, w) :: w2) norm fill
        = calculate_scores stocks_data (w1 ++ w2) norm fill := by
  have hvv : valid_values (metric_values stocks_data m) = [] := by
    apply valid_values_nil_of_all_invalid
    intro v hv
    rcases List.mem_map.mp hv with ⟨row, hrow, rfl⟩
    exact h row hrow
  constructor
  · intro state
    exact stepMetric_of_no_valid _ _ _ _ _ _ hvv
  · cases stocks_data with
    | nil => rfl
    | cons a rest =>
      simp only [calculate_scores]
      rw [List.foldl_append, List.foldl_append, List.foldl_cons,
        stepMetric_of_no_valid _ _ _ _ _ _ hvv]

/-- Witness for C9: on a one-stock table without metric `"m"`, the step for
`"m"` is the identity and `calculate_scores` ignores the metric. -/
theorem claim9_no_signal_metric_skipped_witness :
    stepMetric [("A", [("m2", PyVal.num 1)])] Normalization.minmax true
        [(some 0, 0)] ("m", 1) = [(some 0, 0)]
    ∧ calculate_scores [("A", [("m2", PyVal.num 1)])] [("m", 1)]
        Normalization.minmax true
      = calculate_scores [("A", [("m2", PyVal.num 1)])] [] Normalization.minmax true := by
  have h := claim9_no_signal_metric_skipped [("A", [("m2", PyVal.num 1)])]
    Normalization.minmax true [] [] "m" 1 (by
      intro row hr
      rcases List.mem_singleton.mp hr with rfl
      rfl)
  exact ⟨h.1 [(some 0, 0)], h.2⟩

/-- A raw `nan` cell survives the imputation step unchanged. -/
theorem step_values_nan (stocks_data : List (String × List (String × PyVal)))
    (fill : Bool) (m : String) (i : ℕ)
    (hnan : (metric_values stocks_data m)[i]? = some PyVal.nan) :
    (step_values stocks_data fill m)[i]? = some PyVal.nan := by
  simp only [step_values]
  split
  · simp only [impute_median, List.getElem?_map, hnan]
    rfl
  · exact hnan

/-- Claim C3, part (a) as a lemma: an instrument whose raw cell for a
metric is the not-applicable sentinel is left untouched by that metric's
aggregation step — no score contribution, no accumulated weight. -/
theorem stepMetric_nan_skip (stocks_data : List (String × List (String × PyVal)))
    (norm : Normalization) (fill : Bool) (state : List (Option ℝ × ℝ))
    (m : String) (w : ℝ) (i : ℕ)
    (hlen : state.length = stocks_data.length)
    (hnan : (metric_values stocks_data m)[i]? = some PyVal.nan) :
    (stepMetric stocks_data norm fill state (m, w))[i]? = state[i]? := by
  simp only [stepMetric]
  by_cases h0 : w = 0
  · rw [if_pos h0]
  · rw [if_neg h0]
    by_cases h1 : (valid_values (metric_values stocks_data m)).length = 0
    · rw [if_pos h1]
    · rw [if_neg h1]
      have hi : i < stocks_data.length := by
        rw [← metric_values_length stocks_data m]
        exact lt_length_of_getElem?_some _ _ _ hnan
      have histate : i < state.length := by rw [hlen]; exact hi
      have hsw : state[i]? = some state[i] := List.getElem?_eq_getElem histate
      have hin : i < (step_normalized stocks_data norm fill m).length := by
        rw [step_normalized_length]
        exact hi
      have hn : (step_normalized stocks_data norm fill m)[i]?
          = some (step_normalized stocks_data norm fill m)[i] :=
        List.getElem?_eq_getElem hin
      rw [List.getElem?_map,
        getElem?_zip_of_some _ _ _ _ _ hsw
          (getElem?_zip_of_some _ _ _ _ _ (step_values_nan stocks_data fill m i hnan) hn),
        Option.map_some', hsw]
      rcases h1s : state[i].1 with _ | s <;> simp [apply_metric_weight, h1s]

/-- Claim C3: (a) an instrument whose raw cell for a metric is the
not-applicable sentinel gets neither that metric's normalized score nor its
weight added — the metric's step leaves its state untouched; (b) after all
metrics, every instrument with a defined score and accumulated weight > 0
receives final score = score / accumulated_weight; (c) concretely, for
instrument A with m1 not-applicable and m2 valid under weights
{m1: 0.5, m2: 0.5}, A's composite score is 100 — exactly m2's normalized
score for A (d), not half of it. -/
theorem claim3_not_applicable_redistribution :
    (∀ (stocks_data : List (String × List (String × PyVal))) (norm : Normalization)
        (fill : Bool) (state : List (Option ℝ × ℝ)) (m : String) (w : ℝ) (i : ℕ),
      state.length = stocks_data.length →
      (metric_values stocks_data m)[i]? = some PyVal.nan →
      (stepMetric stocks_data norm fill state (m, w))[i]? = state[i]?)
    ∧ (∀ (stocks_data : List (String × List (String × PyVal)))
        (weights : List (String × ℝ)) (norm : Normalization) (fill : Bool)
        (i : ℕ) (t : String) (s a : ℝ),
      (stocks_data.map Prod.fst)[i]? = some t →
      (weights.foldl (stepMetric stocks_data norm fill)
          ((stocks_data.map Prod.fst).map (fun _ => ((some 0 : Option ℝ), (0 : ℝ)))))[i]?
        = some (some s, a) →
      0 < a →
      (calculate_scores stocks_data weights norm fill)[i]? = some (t, some (s / a)))
    ∧ calculate_scores
        [("A", [("m1", PyVal.nan), ("m2", PyVal.num 30)]),
         ("B", [("m1", PyVal.num 5), ("m2", PyVal.num 10)])]
        [("m1", (1 : ℝ)/2), ("m2", 1/2)] Normalization.minmax true
      = [("A", some 100), ("B", some 25)]
    ∧ (normalize_minmax (metric_values
        [("A", [("m1", PyVal.nan), ("m2", PyVal.num 30)]),
         ("B", [("m1", PyVal.num 5), ("m2", PyVal.num 10)])] "m2") true)[0]?
      = some (some 100) := by
  refine ⟨?_, ?_, ?_, ?_⟩
  · intro stocks_data norm fill state m w i hlen hnan
    exact stepMetric_nan_skip stocks_data norm fill state m w i hlen hnan
  · intro stocks_data weights norm fill i t s a ht hf ha
    cases stocks_data with
    | nil => simp at ht
    | cons x rest =>
      simp only [calculate_scores]
      rw [List.getElem?_map, getElem?_zip_of_some _ _ _ _ _ ht hf, Option.map_some']
      simp only [if_pos ha]
  · have hmv1 : metric_values
        [("A", [("m1", PyVal.nan), ("m2", PyVal.num 30)]),
         ("B", [("m1", PyVal.num 5), ("m2", PyVal.num 10)])] "m1"
        = [PyVal.nan, PyVal.num 5] := rfl
    have hmv2 : metric_values
        [("A", [("m1", PyVal.nan), ("m2", PyVal.num 30)]),
         ("B", [("m1", PyVal.num 5), ("m2", PyVal.num 10)])] "m2"
        = [PyVal.num 30, PyVal.num 10] := rfl
    have hsv1 : step_values
        [("A", [("m1", PyVal.nan), ("m2", PyVal.num 30)]),
         ("B", [("m1", PyVal.num 5), ("m2", PyVal.num 10)])] true "m1"
        = [PyVal.nan, PyVal.num 5] := rfl
    have hsv2 : step_values
        [("A", [("m1", PyVal.nan), ("m2", PyVal.num 30)]),
         ("B", [("m1", PyVal.num 5), ("m2", PyVal.num 10)])] true "m2"
        = [PyVal.num 30, PyVal.num 10] := rfl
    have hhib1 : higher_is_better_get "m1" = true := rfl
    have hhib2 : higher_is_better_get "m2" = true := rfl
    have hn1 : step_normalized
        [("A", [("m1", PyVal.nan), ("m2", PyVal.num 30)]),
         ("B", [("m1", PyVal.num 5), ("m2", PyVal.num 10)])]
        Normalization.minmax true "m1" = [Option.none, some 50] := by
      rw [step_normalized, hsv1, hhib1]
      norm_num [normalize_minmax, valid_values, List.filterMap, listMin, listMax]
    have hn2 : step_normalized
        [("A", [("m1", PyVal.nan), ("m2", PyVal.num 30)]),
         ("B", [("m1", PyVal.num 5), ("m2", PyVal.num 10)])]
        Normalization.minmax true "m2" = [some 100, some 0] := by
      rw [step_normalized, hsv2, hhib2]
      norm_num [normalize_minmax, valid_values, List.filterMap, listMin, listMax,
        min_def, max_def]
    simp only [calculate_scores, List.foldl, stepMetric, hmv1, hmv2, hsv1, hsv2,
      hn1, hn2]
    norm_num [valid_values, List.filterMap, apply_metric_weight, List.zip,
      List.zipWith]
  · have hmv2 : metric_values
        [("A", [("m1", PyVal.nan), ("m2", PyVal.num 30)]),
         ("B", [("m1", PyVal.num 5), ("m2", PyVal.num 10)])] "m2"
        = [PyVal.num 30, PyVal.num 10] := rfl
    rw [hmv2]
    norm_num [normalize_minmax, valid_values, List.filterMap, listMin, listMax,
      min_def, max_def]

/-- Witness for C3 at a concrete N/A cell: metric `"m1"` of instrument A is
`nan`, and its aggregation step leaves A's state `(some 0, 0)` unchanged. -/
theorem claim3_not_applicable_redistribution_witness :
    (stepMetric [("A", [("m1", PyVal.nan), ("m2", PyVal.num 30)]),
        ("B", [("m1", PyVal.num 5), ("m2", PyVal.num 10)])]
      Normalization.minmax true [(some 0, 0), (some 0, 0)] ("m1", (1 : ℝ)/2))[0]?
      = ([((some 0 : Option ℝ), (0 : ℝ)), (some 0, 0)])[0]? :=
  claim3_not_applicable_redistribution.1
    [("A", [("m1", PyVal.nan), ("m2", PyVal.num 30)]),
     ("B", [("m1", PyVal.num 5), ("m2", PyVal.num 10)])]
    Normalization.minmax true [(some 0, 0), (some 0, 0)] "m1" ((1 : ℝ)/2) 0 rfl rfl

/-- Evaluation of the spec's §8 scenario: peer group {X, Y, Z}, single
metric `ev_to_fcf` (lower-is-better) with weight 1.0, values
{X: 10, Y: 20, Z: nan}, min-max: the source returns X = 100, Y = 0 and
Z = 0.0 (Z's initial accumulator, since its accumulated weight is 0). -/
theorem calculate_scores_scenario_XYZ :
    calculate_scores [("X", [("ev_to_fcf", PyVal.num 10)]),
        ("Y", [("ev_to_fcf", PyVal.num 20)]),
        ("Z", [("ev_to_fcf", PyVal.nan)])]
      [("ev_to_fcf", 1)] Normalization.minmax true
      = [("X", some 100), ("Y", some 0), ("Z", some 0)] := by
  have hmv : metric_values [("X", [("ev_to_fcf", PyVal.num 10)]),
      ("Y", [("ev_to_fcf", PyVal.num 20)]),
      ("Z", [("ev_to_fcf", PyVal.nan)])] "ev_to_fcf"
      = [PyVal.num 10, PyVal.num 20, PyVal.nan] := rfl
  have hsv : step_values [("X", [("ev_to_fcf", PyVal.num 10)]),
      ("Y", [("ev_to_fcf", PyVal.num 20)]),
      ("Z", [("ev_to_fcf", PyVal.nan)])] true "ev_to_fcf"
      = [PyVal.num 10, PyVal.num 20, PyVal.nan] := rfl
  have hhib : higher_is_better_get "ev_to_fcf" = false := rfl
  have hnorm : step_normalized [("X", [("ev_to_fcf", PyVal.num 10)]),
      ("Y", [("ev_to_fcf", PyVal.num 20)]),
      ("Z", [("ev_to_fcf", PyVal.nan)])] Normalization.minmax true "ev_to_fcf"
      = [some 100, some 0, Option.none] := by
    rw [step_normalized, hsv, hhib]
    norm_num [normalize_minmax, valid_values, List.filterMap, listMin, listMax,
      min_def, max_def]
  simp only [calculate_scores, List.foldl, stepMetric, hmv, hsv, hnorm]
  norm_num [valid_values, List.filterMap, apply_metric_weight, List.zip,
    List.zipWith]

/-- Claim C1, counterexample: in the spec's scenario the instrument Z (all
weighted metrics not-applicable, accumulated weight 0) receives the numeric
score 0.0, not the undefined marker: the result maps Z to `some 0`, and
`(Z, undefined)` is not among the entries. -/
theorem claim1_zero_weight_counterexample :
    calculate_scores [("X", [("ev_to_fcf", PyVal.num 10)]),
        ("Y", [("ev_to_fcf", PyVal.num 20)]),
        ("Z", [("ev_to_fcf", PyVal.nan)])]
      [("ev_to_fcf", 1)] Normalization.minmax true
      = [("X", some 100), ("Y", some 0), ("Z", some 0)]
    ∧ ("Z", (Option.none : Option ℝ)) ∉ calculate_scores
        [("X", [("ev_to_fcf", PyVal.num 10)]),
         ("Y", [("ev_to_fcf", PyVal.num 20)]),
         ("Z", [("ev_to_fcf", PyVal.nan)])]
        [("ev_to_fcf", 1)] Normalization.minmax true := by
  refine ⟨calculate_scores_scenario_XYZ, ?_⟩
  rw [calculate_scores_scenario_XYZ]
  simp

/-- The per-metric step preserves the zero-weight invariant: with a
nonnegative metric weight, every per-ticker state keeps a nonnegative
accumulated weight, and a state with zero accumulated weight still carries
its initial score `some 0` unless it was marked undefined. -/
theorem stepMetric_preserves_zero_inv
    (stocks_data : List (String × List (String × PyVal))) (norm : Normalization)
    (fill : Bool) (state : List (Option ℝ × ℝ)) (mw : String × ℝ)
    (hw : 0 ≤ mw.2)
    (h : ∀ p ∈ state, 0 ≤ p.2 ∧ (p.2 = 0 → p.1 = some 0 ∨ p.1 = Option.none)) :
    ∀ p ∈ stepMetric stocks_data norm fill state mw,
      0 ≤ p.2 ∧ (p.2 = 0 → p.1 = some 0 ∨ p.1 = Option.none) := by
  intro p hp
  simp only [stepMetric] at hp
  by_cases h0 : mw.2 = 0
  · rw [if_pos h0] at hp
    exact h p hp
  · rw [if_neg h0] at hp
    by_cases h1 : (valid_values (metric_values stocks_data mw.1)).length = 0
    · rw [if_pos h1] at hp
      exact h p hp
    · rw [if_neg h1] at hp
      rcases List.mem_map.mp hp with ⟨q, hq, rfl⟩
      have hq1 : q.1 ∈ state := (List.of_mem_zip hq).1
      have hinv := h q.1 hq1
      have hwpos : 0 < mw.2 := lt_of_le_of_ne hw (Ne.symm h0)
      rcases h1s : q.1.1 with _ | s
      · simpa [apply_metric_weight, h1s] using hinv
      · cases hv : q.2.1 with
        | nan => simpa [apply_metric_weight, h1s, hv] using hinv
        | none =>
          cases hn : q.2.2 with
          | none =>
            refine ⟨?_, ?_⟩ <;> simp [apply_metric_weight, h1s, hv, hn]
            · exact hinv.1
          | some nv =>
            simp only [apply_metric_weight, h1s, hv, hn]
            refine ⟨add_nonneg hinv.1 hw, ?_⟩
            intro hc
            exfalso
            have : 0 < q.1.2 + mw.2 := add_pos_of_nonneg_of_pos hinv.1 hwpos
            rw [hc] at this
            exact lt_irrefl 0 this
        | num x =>
          cases hn : q.2.2 with
          | none =>
            refine ⟨?_, ?_⟩ <;> simp [apply_metric_weight, h1s, hv, hn]
            · exact hinv.1
          | some nv =>
            simp only [apply_metric_weight, h1s, hv, hn]
            refine ⟨add_nonneg hinv.1 hw, ?_⟩
            intro hc
            exfalso
            have : 0 < q.1.2 + mw.2 := add_pos_of_nonneg_of_pos hinv.1 hwpos
            rw [hc] at this
            exact lt_irrefl 0 this

/-- The whole metric fold preserves the zero-weight invariant. -/
theorem foldl_stepMetric_preserves_zero_inv
    (stocks_data : List (String × List (String × PyVal))) (norm : Normalization)
    (fill : Bool) (ws : List (String × ℝ)) (state : List (Option ℝ × ℝ))
    (hw : ∀ q ∈ ws, 0 ≤ q.2)
    (h : ∀ p ∈ state, 0 ≤ p.2 ∧ (p.2 = 0 → p.1 = some 0 ∨ p.1 = Option.none)) :
    ∀ p ∈ ws.foldl (stepMetric stocks_data norm fill) state,
      0 ≤ p.2 ∧ (p.2 = 0 → p.1 = some 0 ∨ p.1 = Option.none) := by
  induction ws generalizing state with
  | nil => simpa using h
  | cons w t ih =>
    rw [List.foldl_cons]
    exact ih _ (fun q hq => hw q (List.mem_cons_of_mem _ hq))
      (stepMetric_preserves_zero_inv stocks_data norm fill state w
        (hw w (List.mem_cons_self w t)) h)

/-- Claim C1, amended: in the spec's scenario `calculate_scores` returns
X = 100, Y = 0 and Z = 0.0 — Z keeps its numeric initial accumulator, it
is not mapped to the undefined value.  In general, with nonnegative
weights, an instrument that ends with accumulated weight 0 either was
marked undefined by the missing-normalized-value path, or is returned with
the numeric score 0.0 (its untouched initial accumulator); zero
accumulated weight by itself never produces the undefined value. -/
theorem claim1_zero_weight_keeps_initial_zero
    (stocks_data : List (String × List (String × PyVal)))
    (weights : List (String × ℝ)) (norm : Normalization) (fill : Bool)
    (hw : ∀ q ∈ weights, 0 ≤ q.2) :
    calculate_scores [("X", [("ev_to_fcf", PyVal.num 10)]),
        ("Y", [("ev_to_fcf", PyVal.num 20)]),
        ("Z", [("ev_to_fcf", PyVal.nan)])]
      [("ev_to_fcf", 1)] Normalization.minmax true
      = [("X", some 100), ("Y", some 0), ("Z", some 0)]
    ∧ ∀ (i : ℕ) (t : String) (s : Option ℝ) (a : ℝ),
        (stocks_data.map Prod.fst)[i]? = some t →
        (weights.foldl (stepMetric stocks_data norm fill)
            ((stocks_data.map Prod.fst).map
              (fun _ => ((some 0 : Option ℝ), (0 : ℝ)))))[i]? = some (s, a) →
        a = 0 →
        (s = Option.none ∧
          (calculate_scores stocks_data weights norm fill)[i]?
            = some (t, Option.none))
        ∨ (s = some 0 ∧
          (calculate_scores stocks_data weights norm fill)[i]? = some (t, some 0)) := by
  refine ⟨calculate_scores_scenario_XYZ, ?_⟩
  intro i t s a ht hf ha
  have hinv := foldl_stepMetric_preserves_zero_inv stocks_data norm fill weights
    ((stocks_data.map Prod.fst).map (fun _ => ((some 0 : Option ℝ), (0 : ℝ)))) hw
    (by
      intro p hp
      rcases List.mem_map.mp hp with ⟨q, hq, rfl⟩
      exact ⟨le_refl 0, fun _ => Or.inl rfl⟩)
    (s, a) (List.getElem?_mem hf)
  rcases hinv.2 ha with hs0 | hs0
  · right
    have hs : s = some 0 := hs0
    refine ⟨hs, ?_⟩
    cases stocks_data with
    | nil => simp at ht
    | cons x rest =>
      rw [hs] at hf
      simp only [calculate_scores]
      rw [List.getElem?_map, getElem?_zip_of_some _ _ _ _ _ ht hf, Option.map_some']
      rw [ha] at hf ⊢
      simp
  · left
    have hs : s = Option.none := hs0
    refine ⟨hs, ?_⟩
    cases stocks_data with
    | nil => simp at ht
    | cons x rest =>
      rw [hs] at hf
      simp only [calculate_scores]
      rw [List.getElem?_map, getElem?_zip_of_some _ _ _ _ _ ht hf, Option.map_some']

/-- Witness for C1's amended theorem: with no metrics at all, instrument A
ends with accumulated weight 0 and receives the numeric score 0.0. -/
theorem claim1_zero_weight_keeps_initial_zero_witness :
    ((some (0 : ℝ) : Option ℝ) = Option.none ∧
      (calculate_scores [("A", [])] [] Normalization.minmax true)[0]?
        = some ("A", Option.none))
    ∨ ((some (0 : ℝ) : Option ℝ) = some 0 ∧
      (calculate_scores [("A", [])] [] Normalization.minmax true)[0]?
        = some ("A", some 0)) :=
  (claim1_zero_weight_keeps_initial_zero [("A", [])] [] Normalization.minmax true
    (by simp)).2 0 "A" (some 0) 0 rfl rfl rfl
